import Mathlib

/-!
# Verification of the CourseRatingsConverter extraction-and-aggregation engine

A shallow embedding, over `List Char`, of the parsing and grouping core of
`streamlit_app.py`: the survey-item catalog extraction, the short-name
derivation, the academic-year calendar, the per-document evaluation parser,
the batch driver, and the two term orderings used by the report layout and
the tabular export.

Conventions of the embedding:
* Python strings are `List Char`; a Python string used as an absence
  sentinel (`''`) is the empty list, and genuinely optional integers are
  `Option Int`.
* Python regular expressions are translated pattern by pattern into
  deterministic scanners with the same leftmost-match and greedy/backtracking
  semantics as `re.search`/`re.match` on the concrete patterns of the source
  (each scanner's doc comment names its pattern).  Character classes `\d`,
  `\s`, `[A-Z]` are modelled over ASCII, which is what the repository's
  report files contain.
* Python `float(token)` for a token drawn from `[\d.]+` is modelled exactly
  by `Frac` (a fraction in lowest terms); `float` raises `ValueError` on a
  token with two dots or no digit, which the parser model propagates as
  `ParseError.valueError`.
* `html.unescape` is modelled on the five standard entities; the documents
  of the claims contain none.
-/

/-! ## Basic character and list helpers -/

/-- Python's `\s` / `str.strip` whitespace, ASCII part: space, tab, newline,
carriage return, vertical tab, form feed. -/
def isWsCh (c : Char) : Bool :=
  c = ' ' || c = '\t' || c = '\n' || c = '\r' || c = Char.ofNat 11 || c = Char.ofNat 12

/-- The class `[0-9]`, as matched by `\d` on the ASCII reports. -/
def isDigitCh (c : Char) : Bool := c.isDigit

/-- The class `[A-Z]`. -/
def isUpperCh (c : Char) : Bool := c.isUpper

/-- Decimal value of a digit run (empty run gives 0, as `int('0'+s)` would;
only ever applied to runs produced by digit spans). -/
def charsToNat (l : List Char) : Nat :=
  l.foldl (fun a c => a * 10 + (c.toNat - 48)) 0

/-- Python `int(token)` for a `\d+` token. -/
def charsToInt (l : List Char) : Int := (charsToNat l : Int)

/-- Decimal rendering of a natural number, as Python `str(n)`. -/
def natToChars (n : Nat) : List Char := Nat.toDigits 10 n

/-- Python `str.strip()` (both ends, default whitespace). -/
def trimWs (l : List Char) : List Char :=
  ((l.dropWhile isWsCh).reverse.dropWhile isWsCh).reverse

/-- Auxiliary for `collapseWs`: `prevWs` records whether the previous kept
character came from a whitespace run already emitted as one space. -/
def collapseWsAux : Bool → List Char → List Char
  | _, [] => []
  | prevWs, c :: cs =>
    if isWsCh c then
      if prevWs then collapseWsAux true cs else ' ' :: collapseWsAux true cs
    else c :: collapseWsAux false cs

/-- Python `re.sub(r'\s+', ' ', s)`: every maximal whitespace run becomes a
single space. -/
def collapseWs (l : List Char) : List Char := collapseWsAux false l

/-- Split on a separator character (Python `str.split('\n')` shape). -/
def splitOnChar (sep : Char) : List Char → List (List Char)
  | [] => [[]]
  | c :: cs =>
    if c = sep then [] :: splitOnChar sep cs
    else
      match splitOnChar sep cs with
      | [] => [[c]]
      | h :: t => (c :: h) :: t

/-- Leftmost occurrence of `pat`: `some (before, after)` splits the input
around the first occurrence. -/
def findSub (pat : List Char) : List Char → Option (List Char × List Char)
  | [] => if pat.isEmpty then some ([], []) else none
  | c :: cs =>
    if pat.isPrefixOf (c :: cs) then some ([], (c :: cs).drop pat.length)
    else
      match findSub pat cs with
      | some (b, a) => some (c :: b, a)
      | none => none

/-- Case-insensitive ASCII prefix test, for patterns compiled with
`re.IGNORECASE`. -/
def ciPrefixOf : List Char → List Char → Bool
  | [], _ => true
  | _ :: _, [] => false
  | p :: ps, c :: cs => (p.toLower = c.toLower) && ciPrefixOf ps cs

/-- Fuel-driven core of `pyReplace`; the fuel is the input length, enough
because every step consumes at least one character. -/
def pyReplaceF : Nat → List Char → List Char → List Char → List Char
  | 0, _, _, s => s
  | _, _, _, [] => []
  | fuel + 1, pat, repl, c :: cs =>
    if !pat.isEmpty && pat.isPrefixOf (c :: cs) then
      repl ++ pyReplaceF fuel pat repl ((c :: cs).drop pat.length)
    else
      c :: pyReplaceF fuel pat repl cs

/-- Python `s.replace(pat, repl)`: replaces every occurrence, left to right,
non-overlapping.  (The source never calls it with an empty pattern.) -/
def pyReplace (pat repl s : List Char) : List Char :=
  pyReplaceF s.length pat repl s

/-- Python `s.rstrip('.')`: removes every trailing period. -/
def rstripDots (l : List Char) : List Char :=
  (l.reverse.dropWhile (· = '.')).reverse

/-- Stable insertion: place `x` before the first element it compares
less-or-equal to, which reproduces the stable ascending order of Python
`sorted`/`list.sort` when driven by `sortStable`. -/
def insertSorted (le : α → α → Bool) (x : α) : List α → List α
  | [] => [x]
  | y :: ys => if le x y then x :: y :: ys else y :: insertSorted le x ys

/-- Stable sort (Python `sorted` with a key, ascending). -/
def sortStable (le : α → α → Bool) (l : List α) : List α :=
  l.foldr (insertSorted le) []

/-! ## Association lists: the model of Python `dict` (insertion-ordered,
unique keys). -/

/-- First-match lookup. -/
def lookupAL [DecidableEq κ] (k : κ) : List (κ × β) → Option β
  | [] => none
  | (k', v) :: t => if k = k' then some v else lookupAL k t

/-- Python `d[k] = f(d.get(k))`: update in place when the key exists, else append
at the end (Python dict insertion order). -/
def alUpdate [DecidableEq κ] (k : κ) (f : Option β → β) : List (κ × β) → List (κ × β)
  | [] => [(k, f none)]
  | (k', v) :: t => if k = k' then (k', f (some v)) :: t else (k', v) :: alUpdate k f t

/-- The keys, in order. -/
def alKeys (l : List (κ × β)) : List κ := l.map Prod.fst

/-! ## Exact model of `float(token)` for `[\d.]+` tokens -/

/-- A non-negative rational in lowest terms: the exact value of a decimal
token accepted by Python `float`.  Two tokens denote the same float value
exactly when their `Frac`s are equal (all tokens in scope are short
decimals, far below double precision). -/
structure Frac where
  num : Nat
  den : Nat
deriving DecidableEq

/-- Fuel-driven Euclidean algorithm (structural, so that the kernel can
evaluate it inside `decide`). -/
def gcdF : Nat → Nat → Nat → Nat
  | 0, _, b => b
  | _ + 1, 0, b => b
  | fuel + 1, a + 1, b => gcdF fuel (b % (a + 1)) (a + 1)

/-- The gcd with always-sufficient fuel. -/
def natGcd (a b : Nat) : Nat := gcdF (a + b + 2) a b

/-- Reduce `n / d` to lowest terms. -/
def Frac.make (n d : Nat) : Frac :=
  let g := natGcd n d
  if g = 0 then ⟨n, d⟩ else ⟨n / g, d / g⟩

/-- Python `float(tok)` for a token drawn from `[\d.]+`: accepted iff the
token has at least one digit and at most one dot (so `'4.'`, `'.5'`, `'45'`,
`'4.50'` parse; `'.'`, `'..'`, `'4.5.0'` raise `ValueError`, modelled as
`none`). -/
def parseFloatTok (tok : List Char) : Option Frac :=
  if tok.any isDigitCh && (tok.filter (· = '.')).length ≤ 1 then
    let ip := tok.takeWhile (· ≠ '.')
    let rest := tok.drop ip.length
    let fp := rest.drop 1
    some (Frac.make (charsToNat ip * 10 ^ fp.length + charsToNat fp) (10 ^ fp.length))
  else none

/-- Model of `html.unescape`, restricted to the five standard entities (the report
bodies the claims exercise contain no entities; `&amp;` is the one the
source comments call out). -/
def pyUnescape : List Char → List Char
  | '&' :: 'a' :: 'm' :: 'p' :: ';' :: rest => '&' :: pyUnescape rest
  | '&' :: 'l' :: 't' :: ';' :: rest => '<' :: pyUnescape rest
  | '&' :: 'g' :: 't' :: ';' :: rest => '>' :: pyUnescape rest
  | '&' :: 'q' :: 'u' :: 'o' :: 't' :: ';' :: rest => Char.ofNat 34 :: pyUnescape rest
  | '&' :: '#' :: '3' :: '9' :: ';' :: rest => Char.ofNat 39 :: pyUnescape rest
  | c :: rest => c :: pyUnescape rest
  | [] => []

/-! ## `extract_survey_items`

The source regex is
`Instructor Survey Items:\s*\n((?:\d+\.\s+[^\n]+\n?)+)` followed by
`re.finditer(r'(\d+)\.\s+(.+?)(?:\n|$)', items_text)`; entries go into a
dict keyed by the item number (`items[item_num] = item_text.strip()`). -/

/-- One iteration of `\d+\.\s+[^\n]+\n?`: returns the suffix after the
iteration.  The `\s+`/`[^\n]+` boundary follows the regex backtracking:
`\s+` takes the longest whitespace run that still leaves a non-newline
character for `[^\n]+`, which then runs to the end of the line, and `\n?`
consumes a following newline. -/
def surveyIterStep (cs : List Char) : Option (List Char) :=
  let ds := cs.takeWhile isDigitCh
  if ds.isEmpty then none
  else
    match cs.drop ds.length with
    | '.' :: r1 =>
      let run := r1.takeWhile isWsCh
      let afterRun := r1.drop run.length
      -- greedy split point for `\s+` (at least one whitespace char),
      -- leaving a non-newline character at the split
      let j :=
        if run.isEmpty then none
        else if afterRun.isEmpty then
          -- input ends at the run: back off to the last non-newline
          -- whitespace character (if any beyond the mandatory first)
          match (List.range run.length).reverse.find?
              (fun k => 1 ≤ k && (run.drop k).head? ≠ some '\n') with
          | some k => some k
          | none => none
        else some run.length
      match j with
      | none => none
      | some k =>
        let tail := r1.drop k
        let desc := tail.takeWhile (· ≠ '\n')
        if desc.isEmpty then none
        else
          match tail.drop desc.length with
          | '\n' :: r2 => some r2
          | r2 => some r2
    | _ => none

/-- Greedy `(?:\d+\.\s+[^\n]+\n?)+`: consumes as many iterations as
possible; fuel is the input length (every iteration consumes at least the
digit). -/
def surveyIters : Nat → List Char → List Char
  | 0, cs => cs
  | fuel + 1, cs =>
    match surveyIterStep cs with
    | none => cs
    | some rest => surveyIters fuel rest

/-- Match the whole section pattern at the current position: the literal
label, `\s*\n` (the newline matched is the last newline of the whitespace
run, by greediness of `\s*`), then at least one numbered line.  Returns the
captured group 1 (the numbered lines). -/
def trySurveySectionAt (cs : List Char) : Option (List Char) :=
  let lit := ("Instructor Survey Items:").data
  if lit.isPrefixOf cs then
    let r0 := cs.drop lit.length
    let run := r0.takeWhile isWsCh
    match (List.range run.length).reverse.find? (fun k => (run.drop k).head? = some '\n') with
    | none => none
    | some j =>
      let body := r0.drop (j + 1)
      match surveyIterStep body with
      | none => none
      | some rest1 =>
        let rest := surveyIters body.length rest1
        some (body.take (body.length - rest.length))
  else none

/-- The `re.search` driver for the section pattern: leftmost position where the
whole pattern matches. -/
def findSurveySection : List Char → Option (List Char)
  | [] => none
  | c :: cs =>
    match trySurveySectionAt (c :: cs) with
    | some g => some g
    | none => findSurveySection cs

/-- One match of `(\d+)\.\s+(.+?)(?:\n|$)` at the current position: the
lazy `(.+?)` stops at the first newline or end of input, so the description
is the rest of the line; returns the number, the description and the suffix
after the consumed match. -/
def tryNumberedAt (cs : List Char) : Option (Nat × List Char × List Char) :=
  let ds := cs.takeWhile isDigitCh
  if ds.isEmpty then none
  else
    match cs.drop ds.length with
    | '.' :: r1 =>
      let run := r1.takeWhile isWsCh
      let afterRun := r1.drop run.length
      let j :=
        if run.isEmpty then none
        else if afterRun.isEmpty then
          match (List.range run.length).reverse.find?
              (fun k => 1 ≤ k && (run.drop k).head? ≠ some '\n') with
          | some k => some k
          | none => none
        else some run.length
      match j with
      | none => none
      | some k =>
        let tail := r1.drop k
        let desc := tail.takeWhile (· ≠ '\n')
        if desc.isEmpty then none
        else
          match tail.drop desc.length with
          | '\n' :: r2 => some (charsToNat ds, desc, r2)
          | r2 => some (charsToNat ds, desc, r2)
    | _ => none

/-- The `re.finditer` scan: non-overlapping matches, left to right; fuel is the
input length. -/
def finditerNumbered : Nat → List Char → List (Nat × List Char)
  | 0, _ => []
  | _, [] => []
  | fuel + 1, c :: cs =>
    match tryNumberedAt (c :: cs) with
    | some (n, desc, rest) => (n, desc) :: finditerNumbered fuel rest
    | none => finditerNumbered fuel cs

/-- The survey-item catalog of one document: a dict from item number to
description (`extract_survey_items`).  Empty when the labelled section is
absent. -/
def extract_survey_items (text : List Char) : List (Nat × List Char) :=
  match findSurveySection text with
  | none => []
  | some itemsText =>
    (finditerNumbered itemsText.length itemsText).foldl
      (fun acc (p : Nat × List Char) => alUpdate p.1 (fun _ => trimWs p.2) acc) []

/-! ## `create_short_name` and the default catalog -/

/-- Uppercase the first character only (`short[0].upper() + short[1:]`,
ASCII model of `str.upper` on one character). -/
def capFirst : List Char → List Char
  | [] => []
  | c :: cs => c.toUpper :: cs

/-- The five canonical survey-item descriptions, in the order of the
source's `item_mapping` dict. -/
def canonicalItems : List (List Char × List Char) :=
  [ (("The instructor explained concepts clearly.").data, ("Explained clearly").data)
  , (("The instructor used effective teaching methods.").data, ("Effective teaching methods").data)
  , (("The instructor interacted with students in a respectful, professional manner.").data,
      ("Respectful interaction").data)
  , (("The instructor was knowledgeable in the subject area.").data, ("Knowledgeable").data)
  , (("Overall, I rate the instructor highly.").data, ("Overall rating").data) ]

/-- Model of `create_short_name`: exact lookup in the canonical table; otherwise
remove every occurrence of `'The instructor '` and then of
`'the instructor '` (Python `str.replace` replaces all occurrences, not
just a leading prefix), strip all trailing periods, and uppercase the
first character. -/
def create_short_name (full_text : List Char) : List Char :=
  match lookupAL full_text canonicalItems with
  | some short => short
  | none =>
    let s1 := pyReplace (("The instructor ").data) [] full_text
    let s2 := pyReplace (("the instructor ").data) [] s1
    let s3 := rstripDots s2
    if s3.isEmpty then s3 else capFirst s3

/-- The fixed five-entry default catalog of `process_files`. -/
def defaultSurveyItems : List (Nat × List Char) :=
  [ (1, ("The instructor explained concepts clearly.").data)
  , (2, ("The instructor used effective teaching methods.").data)
  , (3, ("The instructor interacted with students in a respectful, professional manner.").data)
  , (4, ("The instructor was knowledgeable in the subject area.").data)
  , (5, ("Overall, I rate the instructor highly.").data) ]

/-! ## `get_academic_year` and the two term orderings -/

/-- Model of `get_academic_year(semester, year)`: `None` for an empty semester or a
missing/non-positive year (Python's falsy-zero check plus the
`str(year).isdigit()` guard); `Fall` of year `Y` maps to `"Y-(Y+1)"`,
`Winter`/`Spring`/`Summer` of year `Y` to `"(Y-1)-Y"`, anything else to
`None`.  The semester is stripped before comparison, as in the source. -/
def get_academic_year (semester : List Char) (year : Option Int) : Option (List Char) :=
  if semester.isEmpty then none
  else
    match year with
    | none => none
    | some y =>
      if y ≤ 0 then none
      else
        let s := trimWs semester
        let yn := y.toNat
        if s = ("Fall").data then
          some (natToChars yn ++ '-' :: natToChars (yn + 1))
        else if s = ("Winter").data || s = ("Spring").data || s = ("Summer").data then
          some (natToChars (yn - 1) ++ '-' :: natToChars yn)
        else none

/-- Term order of `organize_by_term` (per-year report layout):
`{'Fall': 1, 'Winter': 2, 'Spring': 3, 'Summer': 4}`, default 99. -/
def termOrderReport (t : List Char) : Nat :=
  if t = ("Fall").data then 1
  else if t = ("Winter").data then 2
  else if t = ("Spring").data then 3
  else if t = ("Summer").data then 4
  else 99

/-- Semester order of `create_dataframe` (flat tabular export sort key):
`{'Winter': 1, 'Spring': 2, 'Summer': 3, 'Fall': 4}`, default 99. -/
def semesterOrderExport (t : List Char) : Nat :=
  if t = ("Winter").data then 1
  else if t = ("Spring").data then 2
  else if t = ("Summer").data then 3
  else if t = ("Fall").data then 4
  else 99

/-! ## The data model of one parsed document -/

/-- One `Item_{n}_*` block of the result dict: the eleven fields of an item
statistics row.  `mean`/`sd` come from `float(...)`, the rest from
`int(...)`. -/
structure ItemStat where
  item : Int
  rank : Int
  mean : Frac
  sd : Frac
  n : Int
  pct_strongly_agree : Int
  pct_agree : Int
  pct_neutral : Int
  pct_disagree : Int
  pct_strongly_disagree : Int
  response_rate : Int
deriving DecidableEq

/-- The `Overall_*` block: mean, sd, n and five distribution percentages
(no response rate). -/
structure OverallStat where
  mean : Frac
  sd : Frac
  n : Int
  pct_strongly_agree : Int
  pct_agree : Int
  pct_neutral : Int
  pct_disagree : Int
  pct_strongly_disagree : Int
deriving DecidableEq

/-- One parsed document (the result dict of `parse_evaluation_content`,
with the flat `Item_{n}_*` keys gathered back into the `items` list the
source builds them from, and `''` sentinels as `[]`/`none`).  The
`_filename` key is display-only bookkeeping and is not modelled;
`surveyItems` is the `_survey_items` internal key. -/
structure Record where
  semester : List Char
  year : Option Int
  enrollment : Option Int
  course_code : List Char
  course_name : List Char
  instructor : List Char
  items : List ItemStat
  overall : Option OverallStat
  surveyItems : List (Nat × List Char)
deriving DecidableEq

/-- The two ways `parse_evaluation_content` can fail: returning `None`
(no `<pre>` block) or letting a `float()` `ValueError` escape. -/
inductive ParseError
  | noContentBlock
  | valueError
deriving DecidableEq

/-! ## The `<pre>` container: `re.search(r'<pre[^>]*>(.*?)</pre>', content, re.DOTALL)` -/

/-- Leftmost `<pre`, then `[^>]*` up to the first `>`, then the lazy body up
to the first `</pre>`; when no closing tag follows, the engine moves on to
the next candidate position. -/
def findPreBlock : List Char → Option (List Char)
  | [] => none
  | c :: cs =>
    if ("<pre").data.isPrefixOf (c :: cs) then
      let r1 := (c :: cs).drop 4
      match r1.drop (r1.takeWhile (· ≠ '>')).length with
      | '>' :: body =>
        match findSub ("</pre>").data body with
        | some (inner, _) => some inner
        | none => findPreBlock cs
      | _ => findPreBlock cs
    else findPreBlock cs

/-! ## Semester/year: `re.search(r'(Winter|Spring|Summer|Fall)\s+(\d{4})', text)` -/

/-- The alternation, tried in pattern order (at most one branch can match
at a given position). -/
def trySemWordAt (cs : List Char) : Option (List Char × List Char) :=
  if ("Winter").data.isPrefixOf cs then some (("Winter").data, cs.drop 6)
  else if ("Spring").data.isPrefixOf cs then some (("Spring").data, cs.drop 6)
  else if ("Summer").data.isPrefixOf cs then some (("Summer").data, cs.drop 6)
  else if ("Fall").data.isPrefixOf cs then some (("Fall").data, cs.drop 4)
  else none

/-- Try the whole pattern at one position: semester word, `\s+`, `\d{4}`
(four digits; more may follow, only four are taken). -/
def trySemYearAt (cs : List Char) : Option (List Char × Int) :=
  match trySemWordAt cs with
  | none => none
  | some (w, r1) =>
    let ws := r1.takeWhile isWsCh
    if ws.isEmpty then none
    else
      let r2 := r1.drop ws.length
      let ds := r2.take 4
      if ds.length = 4 && ds.all isDigitCh then some (w, charsToInt ds) else none

/-- Leftmost match of the semester/year pattern. -/
def extractSemesterYear : List Char → Option (List Char × Int)
  | [] => none
  | c :: cs =>
    match trySemYearAt (c :: cs) with
    | some r => some r
    | none => extractSemesterYear cs

/-! ## Enrollment:
`re.search(r'enrollment for course at start of quarter:\s*N\s*=\s*(\d+)', text, re.IGNORECASE)` -/

/-- Try the enrollment pattern at one position (case-insensitive). -/
def tryEnrollmentAt (cs : List Char) : Option Int :=
  let lit := ("enrollment for course at start of quarter:").data
  if ciPrefixOf lit cs then
    let r1 := cs.drop lit.length
    let r2 := r1.drop (r1.takeWhile isWsCh).length
    match r2 with
    | c :: r3 =>
      if c.toLower = 'n' then
        let r4 := r3.drop (r3.takeWhile isWsCh).length
        match r4 with
        | '=' :: r5 =>
          let r6 := r5.drop (r5.takeWhile isWsCh).length
          let ds := r6.takeWhile isDigitCh
          if ds.isEmpty then none else some (charsToInt ds)
        | _ => none
      else none
    | [] => none
  else none

/-- Leftmost match of the enrollment pattern. -/
def extractEnrollment : List Char → Option Int
  | [] => none
  | c :: cs =>
    match tryEnrollmentAt (c :: cs) with
    | some v => some v
    | none => extractEnrollment cs

/-! ## Course code and name

`re.search(r'^([A-Z]+\s+\d+[A-Z]?)\s*:\s*', text, re.MULTILINE)`, then the
name is the text between the end of that match and a following
`\n([A-Z]+,\s+[A-Z\s]+)\s*$` instructor-signature line (only that match's
start offset is used), falling back to the rest of the line. -/

/-- Try the course-code pattern at a line start: `[A-Z]+\s+\d+[A-Z]?\s*:\s*`.
All steps are maximal-munch; the only backtracking point, dropping the
optional letter, can never rescue a failed `:` (the next character would be
that same letter).  Returns the raw group 1 and the suffix after the whole
match (after the trailing `\s*`). -/
def tryCourseCodeAt (cs : List Char) : Option (List Char × List Char) :=
  let caps := cs.takeWhile isUpperCh
  if caps.isEmpty then none
  else
    let r1 := cs.drop caps.length
    let ws := r1.takeWhile isWsCh
    if ws.isEmpty then none
    else
      let r2 := r1.drop ws.length
      let ds := r2.takeWhile isDigitCh
      if ds.isEmpty then none
      else
        let r3 := r2.drop ds.length
        let (optL, r4) :=
          match r3 with
          | c :: t => if isUpperCh c then ([c], t) else ([], r3)
          | [] => ([], r3)
        let r5 := r4.drop (r4.takeWhile isWsCh).length
        match r5 with
        | ':' :: r6 => some (caps ++ ws ++ ds ++ optL, r6.drop (r6.takeWhile isWsCh).length)
        | _ => none

/-- The `re.MULTILINE` `^` scan: try the pattern at every line start (`atStart`
tracks whether the current position follows a newline or is the start). -/
def findCourseCode : Bool → List Char → Option (List Char × List Char)
  | _, [] => none
  | atStart, c :: cs =>
    match (if atStart then tryCourseCodeAt (c :: cs) else none) with
    | some r => some r
    | none => findCourseCode (c = '\n') cs

/-- The instructor-signature class `[A-Z\s]`. -/
def isSigCh (c : Char) : Bool := isUpperCh c || isWsCh c

/-- Does `\n([A-Z]+,\s+[A-Z\s]+)\s*$` (with `re.MULTILINE` `$`) match with
the newline at the head of `cs`?  After the comma, the three pieces
`\s+[A-Z\s]+\s*` together accept exactly the class-character strings of
length at least two whose first character is whitespace, and `$` must hold
at the end: inside the maximal class run that means a newline at an index
of at least 2, and at the run's end it means end of input. -/
def sigMatchesAt : List Char → Bool
  | '\n' :: cs =>
    let caps := cs.takeWhile isUpperCh
    if caps.isEmpty then false
    else
      match cs.drop caps.length with
      | ',' :: r1 =>
        let run := r1.takeWhile isSigCh
        (match run.head? with | some c => isWsCh c | none => false) &&
          ((2 ≤ run.length && (r1.drop run.length).isEmpty) || (run.drop 2).contains '\n')
      | _ => false
  | _ => false

/-- Offset (`match.start()`) of the leftmost signature match inside a suffix. -/
def findSigIdx (i : Nat) : List Char → Option Nat
  | [] => none
  | c :: cs => if sigMatchesAt (c :: cs) then some i else findSigIdx (i + 1) cs

/-- Course code and name: `some (code, name)` when the course-code pattern
matches somewhere, with the name cleaned as in the source
(`strip` then whitespace collapsed to single spaces). -/
def extractCourseCodeName (text : List Char) : Option (List Char × List Char) :=
  match findCourseCode true text with
  | none => none
  | some (g1, rest) =>
    let code := trimWs g1
    match findSigIdx 0 rest with
    | some idx => some (code, collapseWs (trimWs (rest.take idx)))
    | none => some (code, collapseWs (trimWs (rest.takeWhile (· ≠ '\n'))))

/-! ## Standalone instructor: `re.search(r'^([A-Z]+,\s+[A-Z\s]+)$', text, re.MULTILINE)` -/

/-- The largest index of a newline in a list. -/
def lastNlIdx : List Char → Option Nat
  | [] => none
  | c :: cs =>
    match lastNlIdx cs with
    | some i => some (i + 1)
    | none => if c = '\n' then some 0 else none

/-- Try the standalone instructor pattern at a line start; the capture is
greedy, so `[A-Z\s]+` extends to the furthest position at which `$` holds
(end of input past the whole class run, otherwise the last in-run newline
at index at least 2).  Returns group 1. -/
def tryInstructorAt (cs : List Char) : Option (List Char) :=
  let caps := cs.takeWhile isUpperCh
  if caps.isEmpty then none
  else
    match cs.drop caps.length with
    | ',' :: r1 =>
      let run := r1.takeWhile isSigCh
      if (match run.head? with | some c => isWsCh c | none => false) then
        if (r1.drop run.length).isEmpty && 2 ≤ run.length then
          some (caps ++ ',' :: run)
        else
          match lastNlIdx run with
          | some k => if 2 ≤ k then some (caps ++ ',' :: run.take k) else none
          | none => none
      else none
    | _ => none

/-- The `re.MULTILINE` line-start scan for the instructor pattern; the field is
the stripped capture. -/
def extractInstructor : Bool → List Char → Option (List Char)
  | _, [] => none
  | atStart, c :: cs =>
    match (if atStart then tryInstructorAt (c :: cs) else none) with
    | some g => some (trimWs g)
    | none => extractInstructor (c = '\n') cs

/-! ## Item statistics rows

`item_pattern = r'^\s*(\d+)\s+(\d+)\s+([\d.]+)\s+([\d.]+)\s+(\d+)\s+(\d+)%\s+(\d+)%\s+(\d+)%\s+(\d+)%\s+(\d+)%\s+(\d+)%'`,
applied with `re.match` to every stripped non-empty line; matched rows are
converted (`int`/`float`) and collected, then sorted by item number. -/

/-- Maximal non-empty span of a character class (every `X+` group of the
numeric rows: the classes are disjoint from the `\s+` separators, so
maximal munch is exact). -/
def spanNE (p : Char → Bool) (cs : List Char) : Option (List Char × List Char) :=
  let r := cs.takeWhile p
  if r.isEmpty then none else some (r, cs.drop r.length)

/-- The class `[\d.]`. -/
def isNumDotCh (c : Char) : Bool := isDigitCh c || c = '.'

/-- A percentage group `(\d+)%`. -/
def pctTok (cs : List Char) : Option (List Char × List Char) := do
  let (ds, r) ← spanNE isDigitCh cs
  match r with
  | '%' :: r2 => some (ds, r2)
  | _ => none

/-- The raw captured groups of an item row (tokens, before `int`/`float`
conversion). -/
structure ItemRaw where
  item : List Char
  rank : List Char
  meanTok : List Char
  sdTok : List Char
  n : List Char
  p1 : List Char
  p2 : List Char
  p3 : List Char
  p4 : List Char
  p5 : List Char
  rr : List Char
deriving DecidableEq

/-- A separator-then-group step `\s+(\d+)`. -/
def sepDigits (cs : List Char) : Option (List Char × List Char) :=
  match spanNE isWsCh cs with
  | none => none
  | some (_, r) => spanNE isDigitCh r

/-- A separator-then-group step `\s+([\d.]+)`. -/
def sepNumDot (cs : List Char) : Option (List Char × List Char) :=
  match spanNE isWsCh cs with
  | none => none
  | some (_, r) => spanNE isNumDotCh r

/-- A separator-then-group step `\s+(\d+)%`. -/
def sepPct (cs : List Char) : Option (List Char × List Char) :=
  match spanNE isWsCh cs with
  | none => none
  | some (_, r) => pctTok r

/-- Repeated percentage groups `(\s+(\d+)%){k}`: `k` further groups. -/
def sepPcts : Nat → List Char → Option (List (List Char) × List Char)
  | 0, cs => some ([], cs)
  | k + 1, cs =>
    match sepPct cs with
    | none => none
    | some (d, r) =>
      match sepPcts k r with
      | none => none
      | some (ds, r2) => some (d :: ds, r2)

/-- Model of `re.match(item_pattern, line)`: the eleven groups, or `none`. -/
def matchItemRaw (line : List Char) : Option ItemRaw :=
  let r0 := line.drop (line.takeWhile isWsCh).length
  match spanNE isDigitCh r0 with
  | none => none
  | some (g1, r1) =>
    match sepDigits r1 with
    | none => none
    | some (g2, r2) =>
      match sepNumDot r2 with
      | none => none
      | some (g3, r3) =>
        match sepNumDot r3 with
        | none => none
        | some (g4, r4) =>
          match sepDigits r4 with
          | none => none
          | some (g5, r5) =>
            match sepPcts 6 r5 with
            | some ([g6, g7, g8, g9, g10, g11], _) =>
              some ⟨g1, g2, g3, g4, g5, g6, g7, g8, g9, g10, g11⟩
            | _ => none

/-- The `int`/`float` conversions of one matched row; `none` models the
`ValueError` `float()` raises on a malformed `[\d.]+` token (in either of
the two float fields — which one raises first is unobservable). -/
def convertItem (raw : ItemRaw) : Option ItemStat :=
  match parseFloatTok raw.meanTok, parseFloatTok raw.sdTok with
  | some mean, some sd =>
    some ⟨charsToInt raw.item, charsToInt raw.rank, mean, sd, charsToInt raw.n,
      charsToInt raw.p1, charsToInt raw.p2, charsToInt raw.p3, charsToInt raw.p4,
      charsToInt raw.p5, charsToInt raw.rr⟩
  | _, _ => none

/-- The source's per-line loop: skip non-matching lines, convert matching
ones in order, aborting at the first conversion error. -/
def scanItems : List (List Char) → Except ParseError (List ItemStat)
  | [] => .ok []
  | l :: ls =>
    match matchItemRaw l with
    | none => scanItems ls
    | some raw =>
      match convertItem raw with
      | none => .error .valueError
      | some st =>
        match scanItems ls with
        | .error e => .error e
        | .ok rest => .ok (st :: rest)

/-! ## Overall row

`overall_pattern = r'Over\s*All\s+([\d.]+)\s+([\d.]+)\s+(\d+)\s+(\d+)%\s+(\d+)%\s+(\d+)%\s+(\d+)%\s+(\d+)%'`,
searched over the whole text (note: five percentage groups — mean, sd, n
and the five distribution buckets; no response rate — and no
`re.IGNORECASE`). -/

/-- The raw captured groups of the overall row. -/
structure OverallRaw where
  meanTok : List Char
  sdTok : List Char
  n : List Char
  p1 : List Char
  p2 : List Char
  p3 : List Char
  p4 : List Char
  p5 : List Char
deriving DecidableEq

/-- Try the overall pattern at one position: `Over`, `\s*`, `All`, then
`\s+` separators between mean, sd, n and the five percentage groups, like
an item row without the leading item/rank pair and the response rate. -/
def tryOverallAt (cs : List Char) : Option OverallRaw :=
  if ("Over").data.isPrefixOf cs then
    let r0 := cs.drop 4
    let r1 := r0.drop (r0.takeWhile isWsCh).length
    if ("All").data.isPrefixOf r1 then
      match sepNumDot (r1.drop 3) with
      | none => none
      | some (g1, r2) =>
        match sepNumDot r2 with
        | none => none
        | some (g2, r3) =>
          match sepDigits r3 with
          | none => none
          | some (g3, r4) =>
            match sepPcts 5 r4 with
            | some ([g4, g5, g6, g7, g8], _) => some ⟨g1, g2, g3, g4, g5, g6, g7, g8⟩
            | _ => none
    else none
  else none

/-- Leftmost match of the overall pattern. -/
def findOverallRaw : List Char → Option OverallRaw
  | [] => none
  | c :: cs =>
    match tryOverallAt (c :: cs) with
    | some raw => some raw
    | none => findOverallRaw cs

/-- Conversions for the overall row (the two `float()` calls may raise). -/
def convertOverall (raw : OverallRaw) : Option OverallStat :=
  match parseFloatTok raw.meanTok, parseFloatTok raw.sdTok with
  | some mean, some sd =>
    some ⟨mean, sd, charsToInt raw.n, charsToInt raw.p1, charsToInt raw.p2,
      charsToInt raw.p3, charsToInt raw.p4, charsToInt raw.p5⟩
  | _, _ => none

/-- The overall block: absent when the pattern does not match, a
`ValueError` when a matched token is not a valid float. -/
def extractOverall (text : List Char) : Except ParseError (Option OverallStat) :=
  match findOverallRaw text with
  | none => .ok none
  | some raw =>
    match convertOverall raw with
    | none => .error .valueError
    | some ov => .ok (some ov)

/-! ## `parse_evaluation_content` -/

/-- Comparator for `items.sort(key=lambda x: x['item'])`. -/
def itemNumLe (a b : ItemStat) : Bool := a.item ≤ b.item

/-- The line list `[line.strip() for line in text.split('\n') if line.strip()]`. -/
def parseLines (text : List Char) : List (List Char) :=
  ((splitOnChar '\n' text).map trimWs).filter (fun l => !l.isEmpty)

/-- The body of `parse_evaluation_content` once the `<pre>` block has been
found and entity-decoded: the per-field extractions (all independent, all
degrading to `[]`/`none`), with the two fallible stages — the item-row
loop first, then the overall row — short-circuiting like the exceptions
they model. -/
def parseBlock (text : List Char) : Except ParseError Record :=
  match scanItems (parseLines text), extractOverall text with
  | .error e, _ => .error e
  | .ok _, .error e => .error e
  | .ok itemsRaw, .ok ov =>
    .ok
      { semester := match extractSemesterYear text with | some (s, _) => s | none => []
        year := match extractSemesterYear text with | some (_, y) => some y | none => none
        enrollment := extractEnrollment text
        course_code := match extractCourseCodeName text with | some (c, _) => c | none => []
        course_name := match extractCourseCodeName text with | some (_, n) => n | none => []
        instructor := match extractInstructor true text with | some i => i | none => []
        items := sortStable itemNumLe itemsRaw
        overall := ov
        surveyItems := extract_survey_items text }

/-- Model of `parse_evaluation_content(content)`: find the single `<pre>` block
(else the `None` return, `noContentBlock`), decode entities, then extract
every field; item and overall rows go through `float()`, whose
`ValueError` escapes the function (`valueError`). -/
def parse_evaluation_content (content : List Char) : Except ParseError Record :=
  match findPreBlock content with
  | none => .error .noContentBlock
  | some rawBlock => parseBlock (pyUnescape rawBlock)

/-! ## `organize_by_term` -/

/-- The fields `data.get('Semester', '')` / `data.get('Year', '')` feed
`get_academic_year` for one record. -/
def recordAcademicYear (r : Record) : Option (List Char) :=
  get_academic_year r.semester r.year

/-- One loop iteration of `organize_by_term`: records whose academic year
resolves are appended to `organized[academic_year][semester]`; the others
are skipped (`continue`). -/
def insertByTerm (org : List (List Char × List (List Char × List Record))) (r : Record) :
    List (List Char × List (List Char × List Record)) :=
  match recordAcademicYear r with
  | none => org
  | some ay =>
    alUpdate ay
      (fun terms? => alUpdate r.semester
        (fun l? => (l?.getD []) ++ [r]) (terms?.getD [])) org

/-- The comparator of the final per-year
`sorted(items, key=lambda x: term_order.get(x[0], 99))`. -/
def termPairLe (a b : List Char × List Record) : Bool :=
  termOrderReport a.1 ≤ termOrderReport b.1

/-- Model of `organize_by_term(data_list)`: group by academic year, then by term, in
insertion order; finally the terms of each year are stably sorted in the
report order Fall, Winter, Spring, Summer. -/
def organize_by_term (data_list : List Record) :
    List (List Char × List (List Char × List Record)) :=
  (data_list.foldl insertByTerm []).map (fun p => (p.1, sortStable termPairLe p.2))

/-! ## `process_files` -/

/-- The loop of `process_files` over the decoded file contents: each
document is parsed; a failure (`None` or an escaped exception) increments
the error count; a success appends the record and, when no catalog has been
committed yet, commits this document's catalog (`_survey_items` is present
in every parse result, so the first successfully parsed document commits,
even when its catalog is empty). -/
def processLoop : List (List Char) → Option (List (Nat × List Char)) →
    List Record × Option (List (Nat × List Char)) × Nat × Nat
  | [], cat => ([], cat, 0, 0)
  | content :: rest, cat =>
    match parse_evaluation_content content with
    | .error _ =>
      match processLoop rest cat with
      | (recs, cat', p, e) => (recs, cat', p, e + 1)
    | .ok r =>
      let cat1 := match cat with | none => some r.surveyItems | some c => some c
      match processLoop rest cat1 with
      | (recs, cat', p, e) => (r :: recs, cat', p + 1, e)

/-- The batch summary of `process_files` (the per-year PDF artifacts are
rendering, out of the modelled core; the grouping they are built from is
`groupRecords` below). -/
structure BatchResult where
  all_data : List Record
  survey_items : List (Nat × List Char)
  processed_count : Nat
  error_count : Nat
deriving DecidableEq

/-- Model of `process_files`: run the loop, then fall back to the default catalog
when the committed catalog is `None` or empty. -/
def process_files (files : List (List Char)) : BatchResult :=
  match processLoop files none with
  | (recs, cat, p, e) =>
    let committed :=
      match cat with
      | none => defaultSurveyItems
      | some c => if c.isEmpty then defaultSurveyItems else c
    ⟨recs, committed, p, e⟩

/-- One loop iteration of the instructor-level grouping of `process_files`
(`by_instructor[data.get('Instructor', 'UNKNOWN')].append(data)`; the
`Instructor` key is present in every parse result). -/
def instrInsert (acc : List (List Char × List Record)) (r : Record) :
    List (List Char × List Record) :=
  alUpdate r.instructor (fun l? => (l?.getD []) ++ [r]) acc

/-- The instructor-level grouping of `process_files`. -/
def byInstructor (records : List Record) : List (List Char × List Record) :=
  records.foldl instrInsert []

/-- The records filed under one instructor (empty when the key is absent). -/
def instrBucket (bi : List (List Char × List Record)) (i : List Char) : List Record :=
  (lookupAL i bi).getD []

/-- The grouped structure the annual reports are generated from: per
instructor, `organize_by_term` of that instructor's records. -/
def groupRecords (records : List Record) :
    List (List Char × List (List Char × List (List Char × List Record))) :=
  (byInstructor records).map (fun p => (p.1, organize_by_term p.2))

/-- The records of one `(academic_year, term)` bucket of an
`organize_by_term` structure (empty when either level of the path is
absent). -/
def orgBucket (org : List (List Char × List (List Char × List Record))) (ay t : List Char) :
    List Record :=
  match lookupAL ay org with
  | none => []
  | some terms => (lookupAL t terms).getD []

/-- The records of the `(instructor, academic_year, term)` bucket of the
grouped structure (empty when any level of the path is absent). -/
def bucketAt (g : List (List Char × List (List Char × List (List Char × List Record))))
    (i ay t : List Char) : List Record :=
  match lookupAL i g with
  | none => []
  | some org => orgBucket org ay t

/-- Key uniqueness at both levels of an `organize_by_term`-shaped
structure, the invariant that makes bucket lookups stable under the final
term sort. -/
def OrgNodup (org : List (List Char × List (List Char × List Record))) : Prop :=
  (alKeys org).Nodup ∧ ∀ ay ts, lookupAL ay org = some ts → (alKeys ts).Nodup

/-! ## The flat-export sort of `create_dataframe` -/

/-- The sort key `(x.get('Year', 0), semester_order.get(x.get('Semester', ''), 99))`.
The model reads the parsed year (`get` returns the stored `Year`); a batch
mixing present and absent years would make Python's tuple comparison raise
`TypeError`, so the sort is meaningful — and this model faithful — for
batches whose records all carry a year (absent years are read as the
neutral 0 here). -/
def dfKey (r : Record) : Int × Nat :=
  ((r.year.getD 0), semesterOrderExport r.semester)

/-- Ascending lexicographic comparison of sort keys, as Python compares
key tuples. -/
def dfKeyLe (a b : Record) : Bool :=
  (dfKey a).1 < (dfKey b).1 ||
    ((dfKey a).1 = (dfKey b).1 && (dfKey a).2 ≤ (dfKey b).2)

/-- The sort `all_data.sort(key=...)` of `create_dataframe`: stable ascending sort
by `(year, export semester order)`. -/
def dfSort (l : List Record) : List Record := sortStable dfKeyLe l

/-! ## Statement-side definitions and concrete documents used by the claims -/

deriving instance DecidableEq for Except

/-- The fallback branch of the short-name rule, as the checked claim states
it: remove every occurrence of the capitalised and then of the lowercase
`"... instructor "` phrase, strip all trailing periods, and uppercase the
first character of what is left. -/
def shortNameFallback (s : List Char) : List Char :=
  let s3 := rstripDots
    (pyReplace (("the instructor ").data) []
      (pyReplace (("The instructor ").data) [] s))
  if s3.isEmpty then s3 else capFirst s3

/-- The end-to-end document of the claim: semester line, enrollment line,
course line, one item row, and the four-percentage overall row exactly as
quoted. -/
def c1doc : List Char :=
  ("<pre>\nFall 2022\nenrollment for course at start of quarter: N = 30\nCS 101: Intro to Systems\n1 1 4.50 0.60 25 40% 40% 10% 5% 5% 90%\nOver All 4.40 0.55 25 35% 45% 12% 5%\n</pre>").data

/-- The same document with a fifth distribution percentage on the overall
row, which is what the source's overall pattern actually requires. -/
def c1doc5 : List Char :=
  ("<pre>\nFall 2022\nenrollment for course at start of quarter: N = 30\nCS 101: Intro to Systems\n1 1 4.50 0.60 25 40% 40% 10% 5% 5% 90%\nOver All 4.40 0.55 25 35% 45% 12% 5% 3%\n</pre>").data

/-- A document whose container is present but whose item row carries the
token `..`, on which `float()` raises. -/
def c4doc : List Char := ("<pre>1 1 .. 0.60 25 40% 40% 10% 5% 5% 90%</pre>").data

/-- A document with only an enrollment phrase. -/
def c8docEnr : List Char := ("<pre>enrollment for course at start of quarter: N = 5</pre>").data

/-- A document with only a semester/year phrase. -/
def c8docSem : List Char := ("<pre>Fall 2022</pre>").data

/-- A document with only an overall row. -/
def c8docOv : List Char := ("<pre>Over All 4.0 0.5 10 10% 20% 30% 20% 20%</pre>").data

/-- A parseable document with no survey-item section: its catalog is empty. -/
def c2docEmptyCat : List Char := ("<pre>x</pre>").data

/-- A document whose survey-item catalog is the single entry `1 ↦ Q`. -/
def c2docCatQ : List Char := ("<pre>Instructor Survey Items:\n1. Q\n</pre>").data

/-- A document whose survey-item catalog is the single entry `1 ↦ R`. -/
def c2docCatR : List Char := ("<pre>Instructor Survey Items:\n1. R\n</pre>").data

/-- The partition property of the grouped structure, for one record of a
batch: a record with a resolvable academic year lies in the bucket of its
own `(instructor, academic_year, term)` key and in no other bucket; a
record without one stays in the flat list and lies in no bucket at all. -/
def GroupPartitionProp (rs : List Record) (r : Record) : Prop :=
  (∀ ay, recordAcademicYear r = some ay →
    r ∈ bucketAt (groupRecords rs) r.instructor ay r.semester ∧
    ∀ i' ay' t', r ∈ bucketAt (groupRecords rs) i' ay' t' →
      i' = r.instructor ∧ ay' = ay ∧ t' = r.semester) ∧
  (recordAcademicYear r = none →
    r ∈ rs ∧ ∀ i' ay' t', r ∉ bucketAt (groupRecords rs) i' ay' t')

/-! ## Lemmas about the dict and sorting models -/

theorem lookupAL_alUpdate_self [DecidableEq κ] :
    ∀ (l : List (κ × β)) (k : κ) (f : Option β → β),
      lookupAL k (alUpdate k f l) = some (f (lookupAL k l)) := by
  intro l k f
  induction l with
  | nil => simp [alUpdate, lookupAL]
  | cons p t ih =>
    obtain ⟨k', v⟩ := p
    by_cases h : k = k'
    · subst h; simp [alUpdate, lookupAL]
    · simp [alUpdate, lookupAL, h, ih]

theorem lookupAL_alUpdate_ne [DecidableEq κ] :
    ∀ (l : List (κ × β)) (k k' : κ) (f : Option β → β), k' ≠ k →
      lookupAL k' (alUpdate k f l) = lookupAL k' l := by
  intro l k k' f hne
  induction l with
  | nil => simp [alUpdate, lookupAL, hne]
  | cons p t ih =>
    obtain ⟨k'', v⟩ := p
    by_cases h : k = k''
    · subst h; simp [alUpdate, lookupAL, hne, ih]
    · simp only [alUpdate, if_neg h, lookupAL]
      by_cases h2 : k' = k''
      · simp [h2]
      · simp [h2, ih]

theorem alUpdate_cons_self [DecidableEq κ] (k : κ) (f : Option β → β) (v : β)
    (t : List (κ × β)) : alUpdate k f ((k, v) :: t) = (k, f (some v)) :: t := by
  simp [alUpdate]

theorem alUpdate_cons_ne [DecidableEq κ] {k k' : κ} (f : Option β → β) (v : β)
    (t : List (κ × β)) (h : k ≠ k') :
    alUpdate k f ((k', v) :: t) = (k', v) :: alUpdate k f t := by
  simp [alUpdate, h]

theorem mem_alKeys_alUpdate [DecidableEq κ] :
    ∀ (l : List (κ × β)) (k k' : κ) (f : Option β → β),
      (k' ∈ alKeys (alUpdate k f l) ↔ k' ∈ alKeys l ∨ k' = k) := by
  intro l k k' f
  induction l with
  | nil => simp [alUpdate, alKeys, eq_comm]
  | cons p t ih =>
    obtain ⟨k2, v⟩ := p
    by_cases h : k = k2
    · subst h
      rw [alUpdate_cons_self]
      simp only [alKeys, List.map_cons, List.mem_cons]
      constructor
      · intro hm
        rcases hm with hm | hm
        · exact Or.inl (Or.inl hm)
        · exact Or.inl (Or.inr hm)
      · intro hm
        rcases hm with (hm | hm) | hm
        · exact Or.inl hm
        · exact Or.inr hm
        · exact Or.inl hm
    · rw [alUpdate_cons_ne f v t h]
      simp only [alKeys, List.map_cons, List.mem_cons]
      rw [show (List.map Prod.fst (alUpdate k f t) : List κ) = alKeys (alUpdate k f t) from rfl,
        ih]
      constructor
      · intro hm
        rcases hm with hm | hm | hm
        · exact Or.inl (Or.inl hm)
        · exact Or.inl (Or.inr hm)
        · exact Or.inr hm
      · intro hm
        rcases hm with (hm | hm) | hm
        · exact Or.inl hm
        · exact Or.inr (Or.inl hm)
        · exact Or.inr (Or.inr hm)

theorem alKeys_alUpdate_nodup [DecidableEq κ] :
    ∀ (l : List (κ × β)) (k : κ) (f : Option β → β),
      (alKeys l).Nodup → (alKeys (alUpdate k f l)).Nodup := by
  intro l k f h
  induction l with
  | nil => simp [alUpdate, alKeys]
  | cons p t ih =>
    obtain ⟨k2, v⟩ := p
    simp only [alKeys, List.map_cons, List.nodup_cons] at h
    by_cases hk : k = k2
    · subst hk
      rw [alUpdate_cons_self]
      simp only [alKeys, List.map_cons, List.nodup_cons]
      exact h
    · rw [alUpdate_cons_ne f v t hk]
      simp only [alKeys, List.map_cons, List.nodup_cons]
      refine ⟨?_, ih h.2⟩
      intro hmem
      rw [show (List.map Prod.fst (alUpdate k f t) : List κ) = alKeys (alUpdate k f t) from rfl,
        mem_alKeys_alUpdate] at hmem
      rcases hmem with hm | hm
      · exact h.1 hm
      · exact hk hm.symm

theorem lookupAL_none_iff [DecidableEq κ] :
    ∀ (l : List (κ × β)) (k : κ), lookupAL k l = none ↔ k ∉ alKeys l := by
  intro l k
  induction l with
  | nil => simp [lookupAL, alKeys]
  | cons p t ih =>
    obtain ⟨k', v⟩ := p
    by_cases h : k = k'
    · subst h; simp [lookupAL, alKeys]
    · simp [lookupAL, alKeys, h, ih]

theorem lookupAL_some_iff_mem [DecidableEq κ] :
    ∀ (l : List (κ × β)), (alKeys l).Nodup → ∀ (k : κ) (v : β),
      (lookupAL k l = some v ↔ (k, v) ∈ l) := by
  intro l
  induction l with
  | nil => intro _ k v; simp [lookupAL]
  | cons p t ih =>
    obtain ⟨k', v'⟩ := p
    intro hnd k v
    simp only [alKeys, List.map_cons, List.nodup_cons] at hnd
    by_cases h : k = k'
    · subst h
      simp only [lookupAL, if_pos rfl, List.mem_cons]
      constructor
      · intro hv; cases hv; left; rfl
      · intro hv
        rcases hv with hv | hv
        · cases hv; rfl
        · exfalso
          exact hnd.1 (List.mem_map.mpr ⟨(k, v), hv, rfl⟩)
    · simp only [lookupAL, if_neg h, List.mem_cons]
      rw [ih hnd.2 k v]
      constructor
      · intro hv; right; exact hv
      · intro hv
        rcases hv with hv | hv
        · exfalso; apply h; exact congrArg Prod.fst hv
        · exact hv

theorem lookupAL_perm [DecidableEq κ] :
    ∀ (l l' : List (κ × β)), l.Perm l' → (alKeys l).Nodup →
      ∀ k, lookupAL k l' = lookupAL k l := by
  intro l l' hperm hnd k
  have hnd' : (alKeys l').Nodup := (hperm.map Prod.fst).nodup hnd
  cases hx : lookupAL k l with
  | none =>
    rw [lookupAL_none_iff] at hx ⊢
    intro hmem
    apply hx
    rcases List.mem_map.mp hmem with ⟨p, hp, hpk⟩
    exact List.mem_map.mpr ⟨p, hperm.mem_iff.mpr hp, hpk⟩
  | some v =>
    rw [lookupAL_some_iff_mem l hnd k v] at hx
    exact (lookupAL_some_iff_mem l' hnd' k v).mpr (hperm.mem_iff.mp hx)

theorem lookupAL_map_value [DecidableEq κ] (g : β → γ) :
    ∀ (l : List (κ × β)) (k : κ),
      lookupAL k (l.map (fun p => (p.1, g p.2))) = (lookupAL k l).map g := by
  intro l k
  induction l with
  | nil => simp [lookupAL]
  | cons p t ih =>
    obtain ⟨k', v⟩ := p
    by_cases h : k = k'
    · subst h; simp [lookupAL]
    · simp [lookupAL, h, ih]

theorem insertSorted_perm (le : α → α → Bool) (x : α) :
    ∀ l, (insertSorted le x l).Perm (x :: l) := by
  intro l
  induction l with
  | nil => simp [insertSorted]
  | cons y ys ih =>
    simp only [insertSorted]
    by_cases h : le x y = true
    · rw [if_pos h]
    · rw [if_neg h]
      exact (ih.cons y).trans (List.Perm.swap x y ys)

theorem sortStable_perm (le : α → α → Bool) : ∀ l, (sortStable le l).Perm l := by
  intro l
  induction l with
  | nil => simp [sortStable]
  | cons a l ih =>
    have : sortStable le (a :: l) = insertSorted le a (sortStable le l) := rfl
    rw [this]
    exact (insertSorted_perm le a (sortStable le l)).trans (ih.cons a)

theorem insertSorted_pairwise (le : α → α → Bool)
    (htot : ∀ a b, le a b = true ∨ le b a = true)
    (htrans : ∀ a b c, le a b = true → le b c = true → le a c = true) (x : α) :
    ∀ l, l.Pairwise (fun a b => le a b = true) →
      (insertSorted le x l).Pairwise (fun a b => le a b = true) := by
  intro l
  induction l with
  | nil => intro _; simp [insertSorted]
  | cons y ys ih =>
    intro hp
    rcases List.pairwise_cons.mp hp with ⟨hy, hys⟩
    simp only [insertSorted]
    by_cases h : le x y = true
    · rw [if_pos h]
      refine List.pairwise_cons.mpr ⟨?_, hp⟩
      intro z hz
      rcases List.mem_cons.mp hz with rfl | hz
      · exact h
      · exact htrans x y z h (hy z hz)
    · rw [if_neg h]
      have hyx : le y x = true := (htot x y).resolve_left h
      refine List.pairwise_cons.mpr ⟨?_, ih hys⟩
      intro z hz
      have hz2 : z ∈ x :: ys := (insertSorted_perm le x ys).mem_iff.mp hz
      rcases List.mem_cons.mp hz2 with rfl | hz2
      · exact hyx
      · exact hy z hz2

theorem sortStable_pairwise (le : α → α → Bool)
    (htot : ∀ a b, le a b = true ∨ le b a = true)
    (htrans : ∀ a b c, le a b = true → le b c = true → le a c = true) :
    ∀ l, (sortStable le l).Pairwise (fun a b => le a b = true) := by
  intro l
  induction l with
  | nil => simp [sortStable]
  | cons a l ih => exact insertSorted_pairwise le htot htrans a _ ih

/-! ## Lemmas about the parser components -/

theorem scanItems_error_eq : ∀ ls e, scanItems ls = .error e → e = .valueError := by
  intro ls
  induction ls with
  | nil => intro e h; exact Except.noConfusion h
  | cons l ls ih =>
    intro e h
    simp only [scanItems] at h
    cases hm : matchItemRaw l with
    | none => simp only [hm] at h; exact ih e h
    | some raw =>
      simp only [hm] at h
      cases hc : convertItem raw with
      | none => simp only [hc] at h; cases h; rfl
      | some st =>
        simp only [hc] at h
        cases hs : scanItems ls with
        | error e2 => simp only [hs] at h; cases h; exact ih _ hs
        | ok rest => simp only [hs] at h; exact Except.noConfusion h

theorem extractOverall_error_eq : ∀ t e, extractOverall t = .error e → e = .valueError := by
  intro t e h
  simp only [extractOverall] at h
  cases hf : findOverallRaw t with
  | none => simp only [hf] at h; exact Except.noConfusion h
  | some raw =>
    simp only [hf] at h
    cases hc : convertOverall raw with
    | none => simp only [hc] at h; cases h; rfl
    | some ov => simp only [hc] at h; exact Except.noConfusion h

theorem parseBlock_ok_or_valueError : ∀ text,
    (∃ r, parseBlock text = .ok r) ∨ parseBlock text = .error .valueError := by
  intro text
  cases hs : scanItems (parseLines text) with
  | error e =>
    right
    have he := scanItems_error_eq _ e hs
    subst he
    simp [parseBlock, hs]
  | ok its =>
    cases ho : extractOverall text with
    | error e =>
      right
      have he := extractOverall_error_eq _ e ho
      subst he
      simp [parseBlock, hs, ho]
    | ok ov =>
      left
      simp only [parseBlock, hs, ho]
      exact ⟨_, rfl⟩

theorem parseBlock_sem_year : ∀ text r, parseBlock text = .ok r →
    r.semester = (match extractSemesterYear text with | some (s, _) => s | none => []) ∧
    r.year = (match extractSemesterYear text with | some (_, y) => some y | none => none) := by
  intro text r h
  cases hs : scanItems (parseLines text) with
  | error e => simp only [parseBlock, hs] at h; exact Except.noConfusion h
  | ok its =>
    cases ho : extractOverall text with
    | error e => simp only [parseBlock, hs, ho] at h; exact Except.noConfusion h
    | ok ov =>
      simp only [parseBlock, hs, ho] at h
      cases h
      exact ⟨rfl, rfl⟩

theorem trySemWordAt_ne_nil : ∀ cs w r, trySemWordAt cs = some (w, r) → w ≠ [] := by
  intro cs w r h
  simp only [trySemWordAt] at h
  split at h
  · cases h; decide
  · split at h
    · cases h; decide
    · split at h
      · cases h; decide
      · split at h
        · cases h; decide
        · exact Option.noConfusion h

theorem trySemYearAt_ne_nil : ∀ cs w y, trySemYearAt cs = some (w, y) → w ≠ [] := by
  intro cs w y h
  simp only [trySemYearAt] at h
  cases hw : trySemWordAt cs with
  | none => simp only [hw] at h; exact Option.noConfusion h
  | some p =>
    obtain ⟨w0, r0⟩ := p
    simp only [hw] at h
    split at h
    · exact Option.noConfusion h
    · split at h
      · cases h; exact trySemWordAt_ne_nil _ _ _ hw
      · exact Option.noConfusion h

theorem extractSemesterYear_ne_nil : ∀ t s y, extractSemesterYear t = some (s, y) → s ≠ [] := by
  intro t
  induction t with
  | nil => intro s y h; exact Option.noConfusion h
  | cons c cs ih =>
    intro s y h
    simp only [extractSemesterYear] at h
    cases ht : trySemYearAt (c :: cs) with
    | none => simp only [ht] at h; exact ih s y h
    | some p => simp only [ht] at h; cases h; exact trySemYearAt_ne_nil _ _ _ ht

/-! ## Lemmas about the batch loop -/

theorem processLoop_cat_stays : ∀ fs c, (processLoop fs (some c)).2.1 = some c := by
  intro fs
  induction fs with
  | nil => intro c; rfl
  | cons f fs ih =>
    intro c
    simp only [processLoop]
    cases hp : parse_evaluation_content f with
    | error e =>
      rcases h : processLoop fs (some c) with ⟨recs, cat2, p, e2⟩
      simp only [h]
      have := ih c
      rw [h] at this
      exact this
    | ok r =>
      rcases h : processLoop fs (some c) with ⟨recs, cat2, p, e2⟩
      simp only [h]
      have := ih c
      rw [h] at this
      exact this

theorem processLoop_first_ok : ∀ pre d rest r,
    (∀ c ∈ pre, (parse_evaluation_content c).toOption = none) →
    parse_evaluation_content d = .ok r →
    (processLoop (pre ++ d :: rest) none).2.1 = some r.surveyItems := by
  intro pre
  induction pre with
  | nil =>
    intro d rest r _ hd
    simp only [List.nil_append, processLoop, hd]
    rcases h : processLoop rest (some r.surveyItems) with ⟨recs, cat2, p, e⟩
    simp only [h]
    have := processLoop_cat_stays rest r.surveyItems
    rw [h] at this
    exact this
  | cons c pre ih =>
    intro d rest r hpre hd
    have hc : (parse_evaluation_content c).toOption = none := hpre c (List.mem_cons_self c pre)
    cases hp : parse_evaluation_content c with
    | ok rc => rw [hp] at hc; simp [Except.toOption] at hc
    | error e =>
      simp only [List.cons_append, processLoop, hp]
      rcases h : processLoop (pre ++ d :: rest) none with ⟨recs, cat2, p, e2⟩
      simp only [h]
      have := ih d rest r (fun x hx => hpre x (List.mem_cons_of_mem c hx)) hd
      rw [h] at this
      exact this

/-! ## Lemmas about the year/term grouping fold -/

theorem insertByTerm_none (org : List (List Char × List (List Char × List Record)))
    (r : Record) (h : recordAcademicYear r = none) : insertByTerm org r = org := by
  simp [insertByTerm, h]

theorem orgBucket_insert_self (org : List (List Char × List (List Char × List Record)))
    (r : Record) (ay : List Char) (h : recordAcademicYear r = some ay) :
    orgBucket (insertByTerm org r) ay r.semester = orgBucket org ay r.semester ++ [r] := by
  simp only [insertByTerm, h, orgBucket]
  rw [lookupAL_alUpdate_self]
  cases hy : lookupAL ay org with
  | none =>
    simp only [Option.getD_none]
    rw [lookupAL_alUpdate_self]
    simp [lookupAL]
  | some terms =>
    simp only [Option.getD_some]
    rw [lookupAL_alUpdate_self]
    simp

theorem orgBucket_insert_other (org : List (List Char × List (List Char × List Record)))
    (r : Record) (ay ay' t' : List Char) (h : recordAcademicYear r = some ay)
    (hne : ay' ≠ ay ∨ t' ≠ r.semester) :
    orgBucket (insertByTerm org r) ay' t' = orgBucket org ay' t' := by
  simp only [insertByTerm, h, orgBucket]
  by_cases hay : ay' = ay
  · subst hay
    have ht : t' ≠ r.semester := hne.resolve_left (fun hc => hc rfl)
    rw [lookupAL_alUpdate_self]
    cases hy : lookupAL ay' org with
    | none =>
      simp only [Option.getD_none]
      rw [lookupAL_alUpdate_ne _ _ _ _ ht]
      simp [lookupAL]
    | some terms =>
      simp only [Option.getD_some]
      rw [lookupAL_alUpdate_ne _ _ _ _ ht]
  · rw [lookupAL_alUpdate_ne _ _ _ _ hay]

theorem foldl_insertByTerm_mono :
    ∀ (rs : List Record) (org : List (List Char × List (List Char × List Record)))
      (ay t : List Char) (r0 : Record), r0 ∈ orgBucket org ay t →
      r0 ∈ orgBucket (rs.foldl insertByTerm org) ay t := by
  intro rs
  induction rs with
  | nil => intro org ay t r0 h; exact h
  | cons x rs ih =>
    intro org ay t r0 h
    simp only [List.foldl_cons]
    apply ih
    cases hx : recordAcademicYear x with
    | none => rw [insertByTerm_none _ _ hx]; exact h
    | some ayx =>
      by_cases hk : ay = ayx ∧ t = x.semester
      · obtain ⟨rfl, rfl⟩ := hk
        rw [orgBucket_insert_self _ _ _ hx]
        exact List.mem_append_left _ h
      · rw [orgBucket_insert_other _ _ _ _ _ hx ?_]
        · exact h
        · rcases Decidable.not_and_iff_or_not.mp hk with h1 | h1
          · exact Or.inl h1
          · exact Or.inr h1

theorem foldl_insertByTerm_mem :
    ∀ (rs : List Record) (org : List (List Char × List (List Char × List Record)))
      (r0 : Record) (ay : List Char), r0 ∈ rs → recordAcademicYear r0 = some ay →
      r0 ∈ orgBucket (rs.foldl insertByTerm org) ay r0.semester := by
  intro rs
  induction rs with
  | nil => intro org r0 ay h; cases h
  | cons x rs ih =>
    intro org r0 ay hmem hay
    simp only [List.foldl_cons]
    rcases List.mem_cons.mp hmem with rfl | hmem
    · apply foldl_insertByTerm_mono
      rw [orgBucket_insert_self _ _ _ hay]
      exact List.mem_append_right _ (List.mem_singleton.mpr rfl)
    · exact ih _ r0 ay hmem hay

theorem foldl_insertByTerm_correct :
    ∀ (rs : List Record) (org : List (List Char × List (List Char × List Record)))
      (Q : Record → Prop),
      (∀ ay t r, r ∈ orgBucket org ay t →
        recordAcademicYear r = some ay ∧ r.semester = t ∧ Q r) →
      (∀ x ∈ rs, Q x) →
      ∀ ay t r, r ∈ orgBucket (rs.foldl insertByTerm org) ay t →
        recordAcademicYear r = some ay ∧ r.semester = t ∧ Q r := by
  intro rs
  induction rs with
  | nil => intro org Q hbase _ ay t r h; exact hbase ay t r h
  | cons x rs ih =>
    intro org Q hbase hQ ay t r h
    simp only [List.foldl_cons] at h
    refine ih (insertByTerm org x) Q ?_ (fun y hy => hQ y (List.mem_cons_of_mem x hy)) ay t r h
    intro ay2 t2 r2 h2
    cases hx : recordAcademicYear x with
    | none => rw [insertByTerm_none _ _ hx] at h2; exact hbase ay2 t2 r2 h2
    | some ayx =>
      by_cases hk : ay2 = ayx ∧ t2 = x.semester
      · obtain ⟨rfl, rfl⟩ := hk
        rw [orgBucket_insert_self _ _ _ hx] at h2
        rcases List.mem_append.mp h2 with h3 | h3
        · exact hbase _ _ r2 h3
        · rcases List.mem_singleton.mp h3 with rfl
          exact ⟨hx, rfl, hQ r2 (List.mem_cons_self r2 rs)⟩
      · rw [orgBucket_insert_other _ _ _ _ _ hx ?_] at h2
        · exact hbase ay2 t2 r2 h2
        · rcases Decidable.not_and_iff_or_not.mp hk with h1 | h1
          · exact Or.inl h1
          · exact Or.inr h1

theorem insertByTerm_nodup (org : List (List Char × List (List Char × List Record)))
    (r : Record) (h : OrgNodup org) : OrgNodup (insertByTerm org r) := by
  cases hx : recordAcademicYear r with
  | none => rw [insertByTerm_none _ _ hx]; exact h
  | some ay =>
    simp only [insertByTerm, hx]
    refine ⟨alKeys_alUpdate_nodup _ _ _ h.1, ?_⟩
    intro ay' ts' hl
    by_cases hay : ay' = ay
    · subst hay
      rw [lookupAL_alUpdate_self] at hl
      cases hl
      cases hy : lookupAL ay' org with
      | none => simp only [hy, Option.getD_none]; exact alKeys_alUpdate_nodup _ _ _ (by simp [alKeys])
      | some terms => simp only [hy, Option.getD_some]; exact alKeys_alUpdate_nodup _ _ _ (h.2 ay' terms hy)
    · rw [lookupAL_alUpdate_ne _ _ _ _ hay] at hl
      exact h.2 ay' ts' hl

theorem foldl_insertByTerm_nodup :
    ∀ (rs : List Record) (org : List (List Char × List (List Char × List Record))),
      OrgNodup org → OrgNodup (rs.foldl insertByTerm org) := by
  intro rs
  induction rs with
  | nil => intro org h; exact h
  | cons x rs ih => intro org h; exact ih _ (insertByTerm_nodup org x h)

theorem orgNodup_nil : OrgNodup [] :=
  ⟨List.nodup_nil, fun _ _ h => Option.noConfusion h⟩

theorem orgBucket_organize (rs : List Record) (ay t : List Char) :
    orgBucket (organize_by_term rs) ay t = orgBucket (rs.foldl insertByTerm []) ay t := by
  unfold organize_by_term orgBucket
  rw [lookupAL_map_value (fun ts => sortStable termPairLe ts)]
  cases hy : lookupAL ay (rs.foldl insertByTerm []) with
  | none => simp
  | some terms =>
    simp only [Option.map]
    have hnd : (alKeys terms).Nodup :=
      (foldl_insertByTerm_nodup rs [] orgNodup_nil).2 ay terms hy
    rw [lookupAL_perm terms (sortStable termPairLe terms) (sortStable_perm _ terms).symm hnd]

/-! ## Lemmas about the instructor grouping fold -/

theorem instrBucket_insert_self (bi : List (List Char × List Record)) (r : Record) :
    instrBucket (instrInsert bi r) r.instructor = instrBucket bi r.instructor ++ [r] := by
  unfold instrBucket instrInsert
  rw [lookupAL_alUpdate_self]
  rfl

theorem instrBucket_insert_other (bi : List (List Char × List Record)) (r : Record)
    (i : List Char) (h : i ≠ r.instructor) :
    instrBucket (instrInsert bi r) i = instrBucket bi i := by
  unfold instrBucket instrInsert
  rw [lookupAL_alUpdate_ne _ _ _ _ h]

theorem foldl_instr_mono : ∀ (rs : List Record) (bi : List (List Char × List Record))
    (i : List Char) (r0 : Record), r0 ∈ instrBucket bi i →
    r0 ∈ instrBucket (rs.foldl instrInsert bi) i := by
  intro rs
  induction rs with
  | nil => intro bi i r0 h; exact h
  | cons x rs ih =>
    intro bi i r0 h
    simp only [List.foldl_cons]
    apply ih
    by_cases hk : i = x.instructor
    · subst hk
      rw [instrBucket_insert_self]
      exact List.mem_append_left _ h
    · rw [instrBucket_insert_other _ _ _ hk]
      exact h

theorem foldl_instr_mem : ∀ (rs : List Record) (bi : List (List Char × List Record))
    (r0 : Record), r0 ∈ rs → r0 ∈ instrBucket (rs.foldl instrInsert bi) r0.instructor := by
  intro rs
  induction rs with
  | nil => intro bi r0 h; cases h
  | cons x rs ih =>
    intro bi r0 hmem
    simp only [List.foldl_cons]
    rcases List.mem_cons.mp hmem with rfl | hmem
    · apply foldl_instr_mono
      rw [instrBucket_insert_self]
      exact List.mem_append_right _ (List.mem_singleton.mpr rfl)
    · exact ih _ r0 hmem

theorem foldl_instr_correct : ∀ (rs : List Record) (bi : List (List Char × List Record))
    (Q : Record → Prop),
    (∀ i r, r ∈ instrBucket bi i → r.instructor = i ∧ Q r) →
    (∀ x ∈ rs, Q x) →
    ∀ i r, r ∈ instrBucket (rs.foldl instrInsert bi) i → r.instructor = i ∧ Q r := by
  intro rs
  induction rs with
  | nil => intro bi Q hbase _ i r h; exact hbase i r h
  | cons x rs ih =>
    intro bi Q hbase hQ i r h
    simp only [List.foldl_cons] at h
    refine ih (instrInsert bi x) Q ?_ (fun y hy => hQ y (List.mem_cons_of_mem x hy)) i r h
    intro i2 r2 h2
    by_cases hk : i2 = x.instructor
    · subst hk
      rw [instrBucket_insert_self] at h2
      rcases List.mem_append.mp h2 with h3 | h3
      · exact hbase _ r2 h3
      · rcases List.mem_singleton.mp h3 with rfl
        exact ⟨rfl, hQ r2 (List.mem_cons_self r2 rs)⟩
    · rw [instrBucket_insert_other _ _ _ hk] at h2
      exact hbase i2 r2 h2

theorem bucketAt_group (rs : List Record) (i ay t : List Char) :
    bucketAt (groupRecords rs) i ay t =
      orgBucket ((((lookupAL i (byInstructor rs)).getD []).foldl insertByTerm [])) ay t := by
  unfold bucketAt groupRecords
  rw [lookupAL_map_value organize_by_term]
  cases hl : lookupAL i (byInstructor rs) with
  | none => simp only [Option.map, Option.getD_none]; rfl
  | some li =>
    simp only [Option.map, Option.getD_some]
    have := orgBucket_organize li ay t
    unfold organize_by_term at this
    rw [← this]
    rfl

/-! ## Lemmas about the two term orderings -/

theorem termPairLe_total : ∀ a b : List Char × List Record,
    termPairLe a b = true ∨ termPairLe b a = true := by
  intro a b
  simp only [termPairLe, decide_eq_true_eq]
  omega

theorem termPairLe_trans : ∀ a b c : List Char × List Record,
    termPairLe a b = true → termPairLe b c = true → termPairLe a c = true := by
  intro a b c
  simp only [termPairLe, decide_eq_true_eq]
  omega

theorem dfKeyLe_total : ∀ a b : Record, dfKeyLe a b = true ∨ dfKeyLe b a = true := by
  intro a b
  simp only [dfKeyLe, Bool.or_eq_true, Bool.and_eq_true, decide_eq_true_eq]
  omega

theorem dfKeyLe_trans : ∀ a b c : Record,
    dfKeyLe a b = true → dfKeyLe b c = true → dfKeyLe a c = true := by
  intro a b c
  simp only [dfKeyLe, Bool.or_eq_true, Bool.and_eq_true, decide_eq_true_eq]
  omega

/-! ## The claims -/

set_option maxRecDepth 40000 in
/-- C1, counterexample: on the claim's own document the parser leaves the
overall block wholly absent (the overall pattern needs five distribution
percentages, the quoted row has four), so the claimed
`overall = (mean 4.4, sd 0.55, n 25, pct [35,45,12,5])` does not hold. -/
theorem c1_counterexample :
    (parse_evaluation_content c1doc).toOption.map Record.overall = some none := by decide

set_option maxRecDepth 40000 in
/-- C1 (amended): the end-to-end document yields
`semester=Fall, year=2022, enrollment=30, course_code=CS 101` and
`items[0] = (1, 1, 4.50, 0.60, 25, 40%, 40%, 10%, 5%, 5%, 90%)` exactly as
claimed, but `overall` is absent, because the source's overall pattern
requires five distribution percentages; appending a fifth percentage
(`3%`) makes the overall block parse as
`(mean 4.4, sd 0.55, n 25, pct [35,45,12,5,3])`. -/
theorem c1_end_to_end :
    (parse_evaluation_content c1doc).toOption =
      some
        { semester := ("Fall").data
          year := some 2022
          enrollment := some 30
          course_code := ("CS 101").data
          course_name := ("Intro to Systems").data
          instructor := []
          items := [⟨1, 1, ⟨9, 2⟩, ⟨3, 5⟩, 25, 40, 40, 10, 5, 5, 90⟩]
          overall := none
          surveyItems := [] } ∧
    (parse_evaluation_content c1doc5).toOption.map Record.overall =
      some (some ⟨⟨22, 5⟩, ⟨11, 20⟩, 25, 35, 45, 12, 5, 3⟩) := by
  exact ⟨by decide, by decide⟩

/-- C2 (amended): the committed batch catalog is the catalog of the first
**successfully parsed** document; so when every document before `D1` fails
to parse and `D1` yields a non-empty catalog `A`, the committed catalog is
`A` regardless of everything after `D1`. -/
theorem c2_catalog_first_success : ∀ (pre : List (List Char)) d rest cat,
    (∀ c ∈ pre, (parse_evaluation_content c).toOption = none) →
    (parse_evaluation_content d).toOption.map Record.surveyItems = some cat →
    cat ≠ [] →
    (process_files (pre ++ d :: rest)).survey_items = cat := by
  intro pre d rest cat hpre hd hne
  cases hp : parse_evaluation_content d with
  | error e => rw [hp] at hd; simp [Except.toOption] at hd
  | ok r =>
    rw [hp] at hd
    simp [Except.toOption] at hd
    subst hd
    have hcat := processLoop_first_ok pre d rest r hpre hp
    simp only [process_files]
    rcases h : processLoop (pre ++ d :: rest) none with ⟨recs, cat2, p, e⟩
    rw [h] at hcat
    simp only at hcat
    subst hcat
    cases hcase : r.surveyItems with
    | nil => exact absurd hcase hne
    | cons a t => simp only [hcase]; rfl

/-- C2, counterexample: with a parseable catalog-less document first, the
documents `D1` (catalog `1 ↦ Q`, non-empty) and then `D2` (catalog
`1 ↦ R`, non-empty) are processed in order, yet the committed catalog is
the default, not `A = [1 ↦ Q]`: the first *parsed* document wins, not the
first document with a non-empty catalog. -/
theorem c2_counterexample :
    (parse_evaluation_content c2docEmptyCat).toOption.map Record.surveyItems = some [] ∧
    (parse_evaluation_content c2docCatQ).toOption.map Record.surveyItems =
      some [(1, ("Q").data)] ∧
    (parse_evaluation_content c2docCatR).toOption.map Record.surveyItems =
      some [(1, ("R").data)] ∧
    ([(1, ("Q").data)] : List (Nat × List Char)) ≠ [] ∧
    ([(1, ("R").data)] : List (Nat × List Char)) ≠ [] ∧
    (process_files [c2docEmptyCat, c2docCatQ, c2docCatR]).survey_items = defaultSurveyItems ∧
    (process_files [c2docEmptyCat, c2docCatQ, c2docCatR]).survey_items ≠ [(1, ("Q").data)] := by
  decide

/-- C2, witness: a concrete two-document batch whose head parses with the
non-empty catalog `1 ↦ Q`. -/
theorem c2_witness :
    (process_files ([] ++ c2docCatQ :: [c2docCatR])).survey_items = [(1, ("Q").data)] :=
  c2_catalog_first_success [] c2docCatQ [c2docCatR] [(1, ("Q").data)]
    (by intro c hc; cases hc) (by decide) (by decide)

/-- C3, counterexample: the line
`"1 1 4.50 0.60 25 150% 40% 10% 5% 5% 90%"` matches the 11-field item-row
shape and parses with `pct_strongly_agree = 150 > 100`: the parser imposes
no upper bound on the percentages. -/
theorem c3_pct_counterexample :
    ((matchItemRaw (("1 1 4.50 0.60 25 150% 40% 10% 5% 5% 90%").data)).bind
        convertItem).map ItemStat.pct_strongly_agree = some 150 ∧
      ¬ ((150 : Int) ≤ 100) := by decide

/-- C3 (amended): for every line matching the 11-field item-row shape whose
float tokens convert, mean and sd are (exact) float values by type, and
`n`, `response_rate` and the five distribution percentages are nonnegative
integers; no upper bound of 100 is enforced. -/
theorem c3_item_row_types :
    ∀ line st, (matchItemRaw line).bind convertItem = some st →
      0 ≤ st.n ∧ 0 ≤ st.response_rate ∧
      0 ≤ st.pct_strongly_agree ∧ 0 ≤ st.pct_agree ∧ 0 ≤ st.pct_neutral ∧
      0 ≤ st.pct_disagree ∧ 0 ≤ st.pct_strongly_disagree := by
  intro line st h
  match hm : matchItemRaw line with
  | none => rw [hm] at h; exact Option.noConfusion h
  | some raw =>
    rw [hm] at h
    have h2 : convertItem raw = some st := h
    cases hm1 : parseFloatTok raw.meanTok with
    | none => rw [convertItem, hm1] at h2; exact Option.noConfusion h2
    | some mean =>
      cases hm2 : parseFloatTok raw.sdTok with
      | none => rw [convertItem, hm1, hm2] at h2; exact Option.noConfusion h2
      | some sd =>
        rw [convertItem, hm1, hm2] at h2
        cases h2
        simp only [charsToInt]
        refine ⟨?_, ?_, ?_, ?_, ?_, ?_, ?_⟩ <;> exact Int.natCast_nonneg _

/-- C4, counterexample: a document whose preformatted container is present
but whose item row holds the matched token `..` makes `float()` raise, so
parse fails (yields no Record) even though the container was found. -/
theorem c4_counterexample :
    findPreBlock c4doc ≠ none ∧ (parse_evaluation_content c4doc).toOption = none := by decide

/-- C4 (amended): parse fails with `NoContentBlock` exactly when the
preformatted container is absent; when it is present, parse either returns
a Record (every unmatched field simply absent) or propagates the
`ValueError` of `float()` on a matched malformed numeric token — the
latter is the one exception to "never raises". -/
theorem c4_no_content_block : ∀ content : List Char,
    (parse_evaluation_content content = .error .noContentBlock ↔ findPreBlock content = none) ∧
    (findPreBlock content ≠ none →
      (∃ r, parse_evaluation_content content = .ok r) ∨
        parse_evaluation_content content = .error .valueError) := by
  intro content
  cases hb : findPreBlock content with
  | none =>
    refine ⟨⟨fun _ => rfl, fun _ => ?_⟩, fun hne => absurd rfl hne⟩
    simp [parse_evaluation_content, hb]
  | some block =>
    constructor
    · constructor
      · intro hp
        simp only [parse_evaluation_content, hb] at hp
        rcases parseBlock_ok_or_valueError (pyUnescape block) with ⟨r, hr⟩ | hv
        · rw [hr] at hp; exact Except.noConfusion hp
        · rw [hv] at hp; cases hp
      · intro hn; exact Option.noConfusion hn
    · intro _
      simp only [parse_evaluation_content, hb]
      exact parseBlock_ok_or_valueError (pyUnescape block)

/-- C5, counterexample: `academic_year("Fall", 0)` is absent (Python's
falsy-zero guard), whereas the claim as stated would require `"0-1"`. -/
theorem c5_year_zero_counterexample :
    get_academic_year ("Fall").data (some 0) = none ∧
      (none : Option (List Char)) ≠ some (("0-1").data) := by decide

/-- C5 (amended): for every year `Y ≥ 1`, Fall of `Y` maps to `"Y-(Y+1)"`
and Winter/Spring/Summer of `Y` map to `"(Y-1)-Y"` (with the quoted
concrete examples); absence holds universally: a missing year (for every
semester), a nonpositive year — 0 or negative, which the code treats like
a missing year (for every semester), and every semester string that after
stripping is none of the four terms (for every year). -/
theorem c5_academic_year :
    (∀ y : Int, 1 ≤ y →
      get_academic_year ("Fall").data (some y) =
        some (natToChars y.toNat ++ '-' :: natToChars (y.toNat + 1))) ∧
    (∀ y : Int, 1 ≤ y → ∀ s,
      (s = ("Winter").data ∨ s = ("Spring").data ∨ s = ("Summer").data) →
      get_academic_year s (some y) =
        some (natToChars (y.toNat - 1) ++ '-' :: natToChars y.toNat)) ∧
    get_academic_year ("Fall").data (some 2022) = some (("2022-2023").data) ∧
    get_academic_year ("Spring").data (some 2023) = some (("2022-2023").data) ∧
    (∀ y, get_academic_year [] y = none) ∧
    get_academic_year ("Fall").data none = none ∧
    (∀ y, get_academic_year ("Autumn").data y = none) ∧
    get_academic_year ("Fall").data (some 0) = none ∧
    (∀ s, get_academic_year s none = none) ∧
    (∀ s (y : Int), y ≤ 0 → get_academic_year s (some y) = none) ∧
    (∀ s y, trimWs s ≠ ("Fall").data → trimWs s ≠ ("Winter").data →
      trimWs s ≠ ("Spring").data → trimWs s ≠ ("Summer").data →
      get_academic_year s y = none) := by
  refine ⟨?_, ?_, by decide, by decide, ?_, by decide, ?_, by decide, ?_, ?_, ?_⟩
  · intro y hy
    have h0 : ¬ (y ≤ 0) := by omega
    simp only [get_academic_year]
    rw [if_neg (by decide), if_neg h0, if_pos (by decide)]
  · intro y hy s hs
    have h0 : ¬ (y ≤ 0) := by omega
    rcases hs with h | h | h <;> subst h <;>
      simp only [get_academic_year] <;>
      rw [if_neg (by decide), if_neg h0, if_neg (by decide), if_pos (by decide)]
  · intro y
    simp only [get_academic_year]
    rw [if_pos (by decide)]
  · intro y
    cases y with
    | none => simp only [get_academic_year]; rw [if_neg (by decide)]
    | some v =>
      simp only [get_academic_year]
      rw [if_neg (by decide)]
      by_cases h : v ≤ 0
      · rw [if_pos h]
      · rw [if_neg h, if_neg (by decide), if_neg (by decide)]
  · intro s
    by_cases hs : s.isEmpty = true
    · simp only [get_academic_year]; rw [if_pos hs]
    · simp only [get_academic_year]; rw [if_neg hs]
  · intro s y hy
    by_cases hs : s.isEmpty = true
    · simp only [get_academic_year]; rw [if_pos hs]
    · simp only [get_academic_year]; rw [if_neg hs, if_pos hy]
  · intro s y h1 h2 h3 h4
    by_cases hs : s.isEmpty = true
    · simp only [get_academic_year]; rw [if_pos hs]
    · cases y with
      | none => simp only [get_academic_year]; rw [if_neg hs]
      | some v =>
        simp only [get_academic_year]
        rw [if_neg hs]
        by_cases hv : v ≤ 0
        · rw [if_pos hv]
        · rw [if_neg hv, if_neg (by simp [h1]), if_neg (by simp [h2, h3, h4])]

/-- C6: grouping is a partition — every record of the batch with a
resolvable academic year appears in exactly one
`(instructor, academic_year, term)` bucket of the grouped structure
(namely its own key's bucket), and every record without one stays in the
flat record list but in zero buckets. -/
theorem c6_grouping_partition : ∀ (rs : List Record) (r : Record), r ∈ rs →
    GroupPartitionProp rs r := by
  intro rs r hmem
  have hbi : byInstructor rs = rs.foldl instrInsert [] := rfl
  have hinstr : r ∈ (lookupAL r.instructor (byInstructor rs)).getD [] := by
    rw [hbi]
    exact foldl_instr_mem rs [] r hmem
  have huniq : ∀ i' ay' t', r ∈ bucketAt (groupRecords rs) i' ay' t' →
      recordAcademicYear r = some ay' ∧ r.semester = t' ∧ i' = r.instructor := by
    intro i' ay' t' hbk
    rw [bucketAt_group] at hbk
    have hcor := foldl_insertByTerm_correct ((lookupAL i' (byInstructor rs)).getD []) []
      (fun x => x ∈ ((lookupAL i' (byInstructor rs)).getD []))
      (fun ay2 t2 r2 h2 => absurd h2 (List.not_mem_nil r2))
      (fun x hx => hx) ay' t' r hbk
    obtain ⟨hay', hsem, hin⟩ := hcor
    have hic : r.instructor = i' ∧ r ∈ rs := by
      refine foldl_instr_correct rs [] (fun x => x ∈ rs)
        (fun i2 r2 h2 => absurd h2 (List.not_mem_nil r2))
        (fun x hx => hx) i' r ?_
      rw [← hbi]
      unfold instrBucket
      exact hin
    exact ⟨hay', hsem, hic.1.symm⟩
  constructor
  · intro ay hay
    constructor
    · rw [bucketAt_group]
      exact foldl_insertByTerm_mem _ [] r ay hinstr hay
    · intro i' ay' t' hbk
      obtain ⟨hay', hsem, hi⟩ := huniq i' ay' t' hbk
      rw [hay] at hay'
      exact ⟨hi, (Option.some.inj hay').symm, hsem.symm⟩
  · intro hay
    refine ⟨hmem, ?_⟩
    intro i' ay' t' hbk
    obtain ⟨hay', _, _⟩ := huniq i' ay' t' hbk
    rw [hay] at hay'
    exact Option.noConfusion hay'

/-- C6, witness: the partition property at a concrete one-record batch. -/
theorem c6_witness :
    GroupPartitionProp
      [⟨("Fall").data, some 2022, none, [], [], ("SMITH, JOHN").data, [], none, []⟩]
      ⟨("Fall").data, some 2022, none, [], [], ("SMITH, JOHN").data, [], none, []⟩ :=
  c6_grouping_partition _ _ (by decide)

/-- C7, counterexample: on `"See The instructor now.."` the code removes
the *interior* occurrence of `"The instructor "` and *both* trailing
periods, giving `"See now"`, while the claimed leading-prefix/one-period
rule would give `"See The instructor now."`. -/
theorem c7_counterexample :
    create_short_name (("See The instructor now..").data) = ("See now").data ∧
      ("See now").data ≠ ("See The instructor now.").data := by decide

/-- C7 (amended): the five canonical descriptions map to their fixed short
names; every other input goes through the fallback which removes **every**
occurrence of `"The instructor "` and then of `"the instructor "`, strips
**all** trailing periods, and uppercases the first character. -/
theorem c7_short_name :
    create_short_name (("The instructor explained concepts clearly.").data) =
      ("Explained clearly").data ∧
    create_short_name (("The instructor used effective teaching methods.").data) =
      ("Effective teaching methods").data ∧
    create_short_name
        (("The instructor interacted with students in a respectful, professional manner.").data) =
      ("Respectful interaction").data ∧
    create_short_name (("The instructor was knowledgeable in the subject area.").data) =
      ("Knowledgeable").data ∧
    create_short_name (("Overall, I rate the instructor highly.").data) =
      ("Overall rating").data ∧
    create_short_name (("The instructor was well prepared.").data) =
      ("Was well prepared").data ∧
    (∀ s, lookupAL s canonicalItems = none → create_short_name s = shortNameFallback s) := by
  refine ⟨by decide, by decide, by decide, by decide, by decide, by decide, ?_⟩
  intro s h
  simp only [create_short_name, shortNameFallback, h]

/-- C8, counterexample (the claim's negation): no reachable Record
separates semester from year — semester and year come from the single
pattern `(Winter|Spring|Summer|Fall)\s+(\d{4})`, so a record with semester
absent and year present does not exist, i.e. the absence of semester does
imply the absence of year. -/
theorem c8_counterexample :
    ¬ ∃ (content : List Char) (r : Record),
        parse_evaluation_content content = .ok r ∧ r.semester = [] ∧ r.year ≠ none := by
  rintro ⟨content, r, hok, hsem, hyr⟩
  cases hb : findPreBlock content with
  | none => rw [parse_evaluation_content, hb] at hok; exact Except.noConfusion hok
  | some block =>
    rw [parse_evaluation_content, hb] at hok
    obtain ⟨hs, hy⟩ := parseBlock_sem_year _ _ hok
    cases hsy : extractSemesterYear (pyUnescape block) with
    | none => rw [hsy] at hy; exact hyr hy
    | some p =>
      obtain ⟨s0, y0⟩ := p
      simp only [hsy] at hs
      rw [hs] at hsem
      exact extractSemesterYear_ne_nil _ _ _ hsy hsem

/-- C8 (amended): fields of distinct extraction patterns are independently
optional (concrete documents witness enrollment-only, semester/year-only
and overall-only records), but semester and year are extracted by one
pattern and are absent or present together; likewise the ten statistics of
one item row and the eight overall fields travel together by
construction. -/
theorem c8_field_independence :
    (∀ content r, parse_evaluation_content content = .ok r →
      (r.semester = [] ↔ r.year = none)) ∧
    (parse_evaluation_content c8docEnr).toOption.map
        (fun r => (r.semester, r.year, r.enrollment, r.items.isEmpty, r.overall.isSome)) =
      some ([], none, some 5, true, false) ∧
    (parse_evaluation_content c8docSem).toOption.map
        (fun r => (r.semester, r.year, r.enrollment, r.items.isEmpty, r.overall.isSome)) =
      some (("Fall").data, some 2022, none, true, false) ∧
    (parse_evaluation_content c8docOv).toOption.map
        (fun r => (r.semester, r.year, r.enrollment, r.items.isEmpty, r.overall.isSome)) =
      some ([], none, none, true, true) := by
  refine ⟨?_, by decide, by decide, by decide⟩
  intro content r hok
  cases hb : findPreBlock content with
  | none => rw [parse_evaluation_content, hb] at hok; exact Except.noConfusion hok
  | some block =>
    rw [parse_evaluation_content, hb] at hok
    obtain ⟨hs, hy⟩ := parseBlock_sem_year _ _ hok
    cases hsy : extractSemesterYear (pyUnescape block) with
    | none =>
      simp only [hsy] at hs hy
      constructor
      · intro _; exact hy
      · intro _; exact hs
    | some p =>
      obtain ⟨s0, y0⟩ := p
      simp only [hsy] at hs hy
      constructor
      · intro hnil
        rw [hs] at hnil
        exact absurd hnil (extractSemesterYear_ne_nil _ _ _ hsy)
      · intro hnone; rw [hy] at hnone; exact Option.noConfusion hnone

/-- C8, witness: the coupling instance at a concrete all-absent document. -/
theorem c8_witness :
    (⟨[], none, none, [], [], [], [], none, []⟩ : Record).semester = [] ↔
      (⟨[], none, none, [], [], [], [], none, []⟩ : Record).year = none :=
  c8_field_independence.1 (("<pre>x</pre>").data) _ (by decide)

/-- C9: the per-year report layout orders terms Fall, Winter, Spring,
Summer (`organize_by_term`'s comparator, and its output is sorted by it),
while the flat tabular export sorts by year and then Winter, Spring,
Summer, Fall (`create_dataframe`'s key; `dfSort` is a permutation sorted
by it); the two comparators are distinct and independently applied. -/
theorem c9_two_orderings :
    (termOrderReport (("Fall").data) = 1 ∧ termOrderReport (("Winter").data) = 2 ∧
      termOrderReport (("Spring").data) = 3 ∧ termOrderReport (("Summer").data) = 4 ∧
      semesterOrderExport (("Winter").data) = 1 ∧ semesterOrderExport (("Spring").data) = 2 ∧
      semesterOrderExport (("Summer").data) = 3 ∧ semesterOrderExport (("Fall").data) = 4) ∧
    (∀ rs ay terms, (ay, terms) ∈ organize_by_term rs →
      terms.Pairwise (fun a b => termOrderReport a.1 ≤ termOrderReport b.1)) ∧
    (∀ l : List Record, (dfSort l).Perm l ∧
      (dfSort l).Pairwise (fun a b =>
        (dfKey a).1 < (dfKey b).1 ∨ ((dfKey a).1 = (dfKey b).1 ∧ (dfKey a).2 ≤ (dfKey b).2))) := by
  refine ⟨by decide, ?_, ?_⟩
  · intro rs ay terms hmem
    unfold organize_by_term at hmem
    rcases List.mem_map.mp hmem with ⟨p, _, heq⟩
    have hterms : terms = sortStable termPairLe p.2 := (congrArg Prod.snd heq).symm
    rw [hterms]
    have hpw := sortStable_pairwise termPairLe termPairLe_total termPairLe_trans p.2
    exact hpw.imp (fun h => by simpa only [termPairLe, decide_eq_true_eq] using h)
  · intro l
    refine ⟨sortStable_perm _ l, ?_⟩
    have hpw := sortStable_pairwise dfKeyLe dfKeyLe_total dfKeyLe_trans l
    exact hpw.imp (fun h => by
      simpa only [dfKeyLe, Bool.or_eq_true, Bool.and_eq_true, decide_eq_true_eq] using h)

/-- C10: when the first successfully parsed document of the batch yields an
empty catalog, the batch commits it and falls back to the fixed five-entry
default catalog, regardless of any later document's (possibly non-empty)
catalog. -/
theorem c10_empty_catalog_default : ∀ (pre : List (List Char)) d rest,
    (∀ c ∈ pre, (parse_evaluation_content c).toOption = none) →
    (parse_evaluation_content d).toOption.map Record.surveyItems = some [] →
    (process_files (pre ++ d :: rest)).survey_items = defaultSurveyItems := by
  intro pre d rest hpre hd
  cases hp : parse_evaluation_content d with
  | error e => rw [hp] at hd; simp [Except.toOption] at hd
  | ok r =>
    rw [hp] at hd
    simp [Except.toOption] at hd
    have hcat := processLoop_first_ok pre d rest r hpre hp
    simp only [process_files]
    rcases h : processLoop (pre ++ d :: rest) none with ⟨recs, cat2, p, e⟩
    rw [h] at hcat
    simp only at hcat
    subst hcat
    simp only [hd]
    rfl

/-- C10, witness: a concrete batch whose head parses with an empty catalog
and whose second document carries a non-empty one. -/
theorem c10_witness :
    (process_files ([] ++ c2docEmptyCat :: [c2docCatQ])).survey_items = defaultSurveyItems :=
  c10_empty_catalog_default [] c2docEmptyCat [c2docCatQ]
    (by intro c hc; cases hc) (by decide)


/-- C3, witness: the amended bounds at the end-to-end item row. -/
theorem c3_item_row_types_witness :
    0 ≤ (⟨1, 1, ⟨9, 2⟩, ⟨3, 5⟩, 25, 40, 40, 10, 5, 5, 90⟩ : ItemStat).n ∧
    0 ≤ (⟨1, 1, ⟨9, 2⟩, ⟨3, 5⟩, 25, 40, 40, 10, 5, 5, 90⟩ : ItemStat).response_rate ∧
    0 ≤ (⟨1, 1, ⟨9, 2⟩, ⟨3, 5⟩, 25, 40, 40, 10, 5, 5, 90⟩ : ItemStat).pct_strongly_agree ∧
    0 ≤ (⟨1, 1, ⟨9, 2⟩, ⟨3, 5⟩, 25, 40, 40, 10, 5, 5, 90⟩ : ItemStat).pct_agree ∧
    0 ≤ (⟨1, 1, ⟨9, 2⟩, ⟨3, 5⟩, 25, 40, 40, 10, 5, 5, 90⟩ : ItemStat).pct_neutral ∧
    0 ≤ (⟨1, 1, ⟨9, 2⟩, ⟨3, 5⟩, 25, 40, 40, 10, 5, 5, 90⟩ : ItemStat).pct_disagree ∧
    0 ≤ (⟨1, 1, ⟨9, 2⟩, ⟨3, 5⟩, 25, 40, 40, 10, 5, 5, 90⟩ : ItemStat).pct_strongly_disagree :=
  c3_item_row_types (("1 1 4.50 0.60 25 40% 40% 10% 5% 5% 90%").data)
    ⟨1, 1, ⟨9, 2⟩, ⟨3, 5⟩, 25, 40, 40, 10, 5, 5, 90⟩ (by decide)
